import Mathlib

/-!
Verification development for the catalyst full-system backup/restore
subsystem: the document database (arango) collection dumps, the object
storage (minio) mirror, the zip archive layout, the backup and restore
orchestrators, and the HTTP routing wired in `server.go`.

The backup/restore orchestrators themselves are not part of the visible
sources (only `server.go`, which mounts their handlers, and the test file
`TestBackupAndRestore` are visible), so they are modelled from the spec,
with the archive contents required by the test (`assertZipFile`) taken as
authoritative where the spec and the test disagree.
-/

namespace Catalyst

/-- Raw bytes of an object or archive entry, one `Nat` per byte/symbol. -/
abbrev ByteSeq := List Nat

/-- One JSON document of a collection, kept as opaque bytes. -/
abbrev Doc := List Nat

/-- Modelled from the spec: the fixed, known set of database collections
(§3 Data Model), matching the collection names asserted by
`assertZipFile` in the test file. -/
def knownCollections : List String :=
  ["automations", "jobs", "logs", "migrations", "playbooks", "related",
   "templates", "tickets", "tickettypes", "userdata", "users"]

/-- The name of one archive entry, kept structurally.  `dumpMeta` is the
`arango/dump.json` metadata entry that `assertZipFile` requires in every
backup archive. -/
inductive EntryName where
  | encryption : EntryName
  | dumpMeta : EntryName
  | structureFile (coll : String) (sfx : String) : EntryName
  | dataFile (coll : String) (sfx : String) : EntryName
  | object (bucket : String) (key : String) : EntryName
deriving DecidableEq, Repr

/-- The path of an archive entry inside the zip container
(§6 External Interfaces, archive layout). -/
def EntryName.path : EntryName → String
  | .encryption => "arango/ENCRYPTION"
  | .dumpMeta => "arango/dump.json"
  | .structureFile c s => "arango/" ++ c ++ "_" ++ s ++ ".structure.json"
  | .dataFile c s => "arango/" ++ c ++ "_" ++ s ++ ".data.json.gz"
  | .object b k => "minio/" ++ b ++ "/" ++ k

/-- An archive is the ordered list of its named entries, each with its
content bytes. -/
abbrev Archive := List (EntryName × ByteSeq)

/-- The two-store environment: the document database (collection name to
its documents, association list) and the object storage (bucket name to
its keyed objects). -/
structure Env where
  db : List (String × List Doc)
  buckets : List (String × List (String × ByteSeq))
deriving DecidableEq, Repr

/-- Association-list lookup with decidable string keys, first match wins. -/
def lookupA {α : Type} : List (String × α) → String → Option α
  | [], _ => none
  | (k', v) :: rest, k => if k' = k then some v else lookupA rest k

/-- Association-list update: replace the first binding of the key, or
append a new binding at the end. -/
def setA {α : Type} : List (String × α) → String → α → List (String × α)
  | [], k, v => [(k, v)]
  | (k', v') :: rest, k, v =>
    if k' = k then (k, v) :: rest else (k', v') :: setA rest k v

/-- Documents of a collection in the database (empty if absent). -/
def dbGet (e : Env) (c : String) : List Doc := (lookupA e.db c).getD []

/-- Object bytes at bucket `b`, key `k` of a bucket list. -/
def getObj (st : List (String × List (String × ByteSeq))) (b k : String) :
    Option ByteSeq :=
  (lookupA st b).bind fun objs => lookupA objs k

/-- Object bytes at bucket `b`, key `k` of an environment. -/
def getObject (e : Env) (b k : String) : Option ByteSeq := getObj e.buckets b k

/-- Modelled from the spec: the collection dumper's data stream
(§4.1) — every document serialized into one logical byte stream.  The
JSON-stream-plus-gzip codec is abstracted as a length-delimited
concatenation, an injective encoding with a total inverse. -/
def encodeDocs : List Doc → ByteSeq
  | [] => []
  | d :: ds => d.length :: (d ++ encodeDocs ds)

/-- Inverse of `encodeDocs`: decompress/parse the document stream,
`none` on a corrupt stream. -/
def decodeDocs : ByteSeq → Option (List Doc)
  | [] => some []
  | n :: rest =>
    if n ≤ rest.length then
      match decodeDocs (rest.drop n) with
      | some ds => some (rest.take n :: ds)
      | none => none
    else none
termination_by b => b.length
decreasing_by simp [List.length_drop]; omega

/-- Modelled from the spec: the structure descriptor of a collection
(§4.1), schema/index metadata derived from the collection, opaque to
restore beyond being located. -/
def structureBytes (c : String) : ByteSeq := c.data.map Char.toNat

/-- Content of the `arango/dump.json` metadata entry. -/
def dumpMetaBytes : ByteSeq := [123, 125]

/-- Content of the `arango/ENCRYPTION` marker entry. -/
def markerBytes : ByteSeq := []

/-- Modelled from the spec: backup step (2) (§4.4) — for every known
collection, in the fixed enumeration order, the structure entry and the
data entry, sharing the run suffix `sfx`. -/
def collectionEntries (sfx : String) (e : Env) : Archive :=
  knownCollections.flatMap fun c =>
    [(EntryName.structureFile c sfx, structureBytes c),
     (EntryName.dataFile c sfx, encodeDocs (dbGet e c))]

/-- Modelled from the spec: backup step (3) (§4.2, §4.4) — the object
mirror enumerates every bucket, then every key, and yields each object's
raw bytes under `minio/<bucket>/<key>`. -/
def objectEntries (e : Env) : Archive :=
  e.buckets.flatMap fun bo =>
    bo.2.map fun kv => (EntryName.object bo.1 kv.1, kv.2)

/-- Modelled from the spec: the backup orchestrator's archive (§4.4) —
collection dumps, the `arango/dump.json` metadata entry required by
`assertZipFile`, the mirrored objects, and finally the encryption
marker, in this order. -/
def backupArchive (sfx : String) (e : Env) : Archive :=
  collectionEntries sfx e ++ [(EntryName.dumpMeta, dumpMetaBytes)]
    ++ objectEntries e ++ [(EntryName.encryption, markerBytes)]

/-- Serialize a string into the wire stream, length-delimited. -/
def encStr (s : String) : List Nat := s.length :: s.data.map Char.toNat

/-- Serialize an entry name into the wire stream, tag-delimited. -/
def encName : EntryName → List Nat
  | .encryption => [0]
  | .dumpMeta => [1]
  | .structureFile c s => 2 :: (encStr c ++ encStr s)
  | .dataFile c s => 3 :: (encStr c ++ encStr s)
  | .object b k => 4 :: (encStr b ++ encStr k)

/-- Serialize one archive entry: its name, then its length-delimited
content. -/
def encEntry (en : EntryName × ByteSeq) : List Nat :=
  encName en.1 ++ (en.2.length :: en.2)

/-- Modelled from the spec: the archive writer (§4.3) — the zip
container is abstracted as an injective serialization of the entry list
with a partial inverse (`openArchive`). -/
def serializeArchive (ar : Archive) : ByteSeq :=
  ar.length :: ar.flatMap encEntry

/-- Parse a length-delimited string from the wire stream. -/
def decStr (b : List Nat) : Option (String × List Nat) :=
  match b with
  | [] => none
  | n :: rest =>
    if n ≤ rest.length then
      some (String.mk ((rest.take n).map Char.ofNat), rest.drop n)
    else none

/-- Parse length-delimited raw bytes from the wire stream. -/
def decBytes (b : List Nat) : Option (ByteSeq × List Nat) :=
  match b with
  | [] => none
  | n :: rest =>
    if n ≤ rest.length then some (rest.take n, rest.drop n) else none

/-- Parse one entry name from the wire stream. -/
def decName (b : List Nat) : Option (EntryName × List Nat) :=
  match b with
  | 0 :: r => some (.encryption, r)
  | 1 :: r => some (.dumpMeta, r)
  | 2 :: r =>
    (decStr r).bind fun cr =>
      (decStr cr.2).map fun sr => (.structureFile cr.1 sr.1, sr.2)
  | 3 :: r =>
    (decStr r).bind fun cr =>
      (decStr cr.2).map fun sr => (.dataFile cr.1 sr.1, sr.2)
  | 4 :: r =>
    (decStr r).bind fun cr =>
      (decStr cr.2).map fun sr => (.object cr.1 sr.1, sr.2)
  | _ => none

/-- Parse one archive entry (name, then content) from the wire stream. -/
def decEntry (b : List Nat) : Option ((EntryName × ByteSeq) × List Nat) :=
  (decName b).bind fun nr =>
    (decBytes nr.2).map fun br => ((nr.1, br.1), br.2)

/-- Parse a counted sequence of archive entries from the wire stream. -/
def decEntries : Nat → List Nat → Option (Archive × List Nat)
  | 0, r => some ([], r)
  | n + 1, r =>
    (decEntry r).bind fun er =>
      (decEntries n er.2).map fun arr => (er.1 :: arr.1, arr.2)

/-- Modelled from the spec: the archive reader's open step (§4.3) —
parse the container index, `none` when the byte stream is not a
parseable archive (`CorruptArchive`). -/
def openArchive (b : ByteSeq) : Option Archive :=
  match b with
  | [] => none
  | n :: r =>
    match decEntries n r with
    | some (ar, []) => some ar
    | _ => none

/-- The error taxonomy of the spec (§7): bad-input kinds raised by
restore, and `storeFailure` for a failed database or object-storage
read or write. -/
inductive RErr where
  | invalidUpload : RErr
  | corruptArchive : RErr
  | missingCollectionDump (c : String) : RErr
  | corruptDataStream (c : String) : RErr
  | storeFailure : RErr
deriving DecidableEq, Repr

/-- The structure entries of collection `c` in an archive, located by
name pattern (collection name plus wildcard suffix), as `(suffix,
content)` pairs in archive order. -/
def findStructure (ar : Archive) (c : String) : List (String × ByteSeq) :=
  ar.filterMap fun en =>
    match en.1 with
    | .structureFile c' s => if c' = c then some (s, en.2) else none
    | _ => none

/-- The data entries of collection `c` in an archive, located by name
pattern, as `(suffix, content)` pairs in archive order. -/
def findData (ar : Archive) (c : String) : List (String × ByteSeq) :=
  ar.filterMap fun en =>
    match en.1 with
    | .dataFile c' s => if c' = c then some (s, en.2) else none
    | _ => none

/-- Modelled from the spec: restore step (5) for one known collection
(§4.5) — locate the structure/data pair by name pattern and shared
suffix; a collection absent from the archive is left empty (`ok []`); a
structure entry without its matching data entry, or data without
structure, is `MissingCollectionDump`; the decoded documents are
returned for bulk insert. -/
def restoreCollection (ar : Archive) (c : String) : Except RErr (List Doc) :=
  match findStructure ar c, findData ar c with
  | [], [] => .ok []
  | [], _ :: _ => .error (.missingCollectionDump c)
  | (s, _) :: _, datas =>
    match lookupA datas s with
    | none => .error (.missingCollectionDump c)
    | some db =>
      match decodeDocs db with
      | some ds => .ok ds
      | none => .error (.corruptDataStream c)

/-- Modelled from the spec: restore step (3) (§4.5) — truncate every
known collection in the live database (idempotent; collections not
present stay absent, hence stay empty). -/
def truncateAll (e : Env) : Env :=
  { e with db := e.db.map fun cv =>
      if cv.1 ∈ knownCollections then (cv.1, ([] : List Doc)) else cv }

/-- Create the destination bucket if absent (restore step (4)). -/
def ensureBucket (st : List (String × List (String × ByteSeq)))
    (b : String) : List (String × List (String × ByteSeq)) :=
  match lookupA st b with
  | some _ => st
  | none => st ++ [(b, [])]

/-- Write an object body under its original key, overwriting any
existing object of the same key (restore step (4)). -/
def putObject (st : List (String × List (String × ByteSeq)))
    (b k : String) (v : ByteSeq) : List (String × List (String × ByteSeq)) :=
  match st with
  | [] => []
  | (b0, objs0) :: tl =>
    if b0 = b then (b0, setA objs0 k v) :: putObject tl b k v
    else (b0, objs0) :: putObject tl b k v

/-- Modelled from the spec: restore step (4) (§4.5) — for every object
entry under `minio/`, in archive order, ensure the bucket exists and
write the object under its original key. -/
def replayObjects (ar : Archive)
    (st : List (String × List (String × ByteSeq))) :
    List (String × List (String × ByteSeq)) :=
  ar.foldl (fun st en =>
    match en.1 with
    | .object b k => putObject (ensureBucket st b) b k en.2
    | _ => st) st

/-- Modelled from the spec: restore step (5) over the known collections
in the fixed enumeration order; the first error aborts, leaving the
partial state reached so far (§4.5 step (6), no rollback). -/
def restoreCollections : List String → Archive → Env → Env × Option RErr
  | [], _, e => (e, none)
  | c :: cs, ar, e =>
    match restoreCollection ar c with
    | .error err => (e, some err)
    | .ok ds => restoreCollections cs ar { e with db := setA e.db c ds }

/-- Modelled from the spec: restore steps (3)-(5) on an opened archive
(§4.5): truncate the known collections, replay the objects, then apply
every collection's structure/data pair. -/
def restoreFromArchive (ar : Archive) (e : Env) : Env × Option RErr :=
  let e1 := truncateAll e
  let e2 := { e1 with buckets := replayObjects ar e1.buckets }
  restoreCollections knownCollections ar e2

/-- A parsed multipart upload: its named form parts. -/
abbrev Upload := List (String × ByteSeq)

/-- Modelled from the spec: restore step (1) (§4.5, §6) — the archive
file travels in the multipart form field `backup`; `none` when that
part is absent (`InvalidUpload`). -/
def backupPart (up : Upload) : Option ByteSeq := lookupA up "backup"

/-- Modelled from the spec: the restore orchestrator (§4.5), steps (1)
multipart parse, (2) archive open, then (3)-(5); on a step (1) or (2)
failure the environment is returned untouched — truncation only begins
after the archive has opened successfully. -/
def restoreUpload (up : Upload) (e : Env) : Env × Option RErr :=
  match backupPart up with
  | none => (e, some .invalidUpload)
  | some bytes =>
    match openArchive bytes with
    | none => (e, some .corruptArchive)
    | some ar => restoreFromArchive ar e

/-- An HTTP response: status code and body bytes. -/
structure Response where
  status : Nat
  body : ByteSeq
deriving DecidableEq, Repr

/-- The error body returned with a failure status; it names the error
kind so operators can distinguish bad input from store failure (§7). -/
def errBody : RErr → ByteSeq
  | .invalidUpload => [1]
  | .corruptArchive => [2]
  | .missingCollectionDump _ => [3]
  | .corruptDataStream _ => [4]
  | .storeFailure => [5]

/-- Modelled from the spec: the narrow collaborator interface the
backup orchestrator consumes (§6) — cursor-based export of one
collection's documents, and enumeration of all buckets with their
objects.  Either read can fail (`none`), which the orchestrator
surfaces as `StoreFailure` (§7). -/
structure StoreView where
  readCollection : String → Option (List Doc)
  listBuckets : Option (List (String × List (String × ByteSeq)))

/-- The healthy view of an environment: every collaborator read
succeeds and returns the environment's contents. -/
def viewOf (e : Env) : StoreView :=
  ⟨fun c => some (dbGet e c), some e.buckets⟩

/-- A collaborator view whose every read fails. -/
def failingView : StoreView := ⟨fun _ => none, none⟩

/-- Modelled from the spec: backup step (2) (§4.4) over the fallible
collaborator — dump the collections in order; a collection-read failure
aborts the whole dump as a fatal backup error (§4.1), committing no
partial collection. -/
def dumpCollections (sfx : String) (v : StoreView) :
    List String → Except RErr Archive
  | [] => .ok []
  | c :: cs =>
    match v.readCollection c with
    | none => .error .storeFailure
    | some ds =>
      match dumpCollections sfx v cs with
      | .error er => .error er
      | .ok rest =>
        .ok ((EntryName.structureFile c sfx, structureBytes c)
          :: (EntryName.dataFile c sfx, encodeDocs ds) :: rest)

/-- Modelled from the spec: the backup orchestrator (§4.4) over the
fallible collaborator — dump every known collection, enumerate the
buckets for the object mirror (a failed enumeration is fatal, §4.2),
then append the metadata entry and the encryption marker; any step
failure aborts immediately and no archive is produced. -/
def backupArchiveV (sfx : String) (v : StoreView) : Except RErr Archive :=
  match dumpCollections sfx v knownCollections with
  | .error er => .error er
  | .ok colls =>
    match v.listBuckets with
    | none => .error .storeFailure
    | some bs =>
      .ok (colls ++ [(EntryName.dumpMeta, dumpMetaBytes)]
        ++ (bs.flatMap fun bo => bo.2.map fun kv => (EntryName.object bo.1 kv.1, kv.2))
        ++ [(EntryName.encryption, markerBytes)])

/-- Modelled from the spec: `GET <api>/backup/create` (§6) — on success
the finished archive byte stream is the body with status 200; any
internal failure is a non-2xx status with a body naming the error. -/
def backupRequest (sfx : String) (v : StoreView) : Response :=
  match backupArchiveV sfx v with
  | .ok ar => ⟨200, serializeArchive ar⟩
  | .error er => ⟨500, errBody er⟩

/-- The backup-create handler, serving the live environment through its
healthy collaborator view. -/
def backupHandler (sfx : String) (e : Env) : Response :=
  backupRequest sfx (viewOf e)

/-- Modelled from the spec: `POST <api>/backup/restore` (§6) — 200
exactly on full success, otherwise a non-2xx status with an error
body. -/
def restoreHandler (up : Upload) (e : Env) : Env × Response :=
  match restoreUpload up e with
  | (e2, none) => (e2, ⟨200, []⟩)
  | (e2, some er) => (e2, ⟨400, errBody er⟩)

/-- An HTTP request as the routing layer sees it: method, remaining
path segments, the authentication and blocked-user facts established by
the external collaborator, the caller's capabilities, and the multipart
form parts. -/
structure Request where
  method : String
  path : List String
  authed : Bool
  blocked : Bool
  perms : List String
  parts : Upload

/-- A mounted route handler: request and environment in, possibly
changed environment and response out. -/
abbrev Handler := Request → Env → Env × Response

/-- Modelled from the spec: the external authorization collaborator's
capability check (`maut.AuthorizePermission`, wrapped in
`server.go:backupServer`) — the wrapped handler runs only when the
caller holds the capability `p`, otherwise 403. -/
def authorizePermission (p : String) (next : Handler) : Handler :=
  fun req e => if p ∈ req.perms then next req e else (e, ⟨403, [9]⟩)

/-- The backup sub-router of `server.go:backupServer`: `GET /create`
guarded by the capability `backup:create`, `POST /restore` guarded by
`backup:restore`. -/
def backupServer (createH restoreH : Handler) : Handler :=
  fun req e =>
    match req.method, req.path with
    | "GET", ["create"] => authorizePermission "backup:create" createH req e
    | "POST", ["restore"] => authorizePermission "backup:restore" restoreH req e
    | _, _ => (e, ⟨404, []⟩)

/-- Modelled from the spec: the external authenticator's middleware
(`authenticator.Authenticate()` in `server.go:setupAPI`) — unauthenticated
callers are stopped with 401. -/
def authenticate (next : Handler) : Handler :=
  fun req e => if req.authed then next req e else (e, ⟨401, [8]⟩)

/-- Modelled from the spec: the blocked-user middleware
(`authenticator.AuthorizeBlockedUser()` in `server.go:setupAPI`) —
blocked users are stopped with 403. -/
def authorizeBlockedUser (next : Handler) : Handler :=
  fun req e => if req.blocked then (e, ⟨403, [8]⟩) else next req e

/-- The API router of `server.go:setupAPI`: `/backup` is mounted on the
API server (`apiServer.Mount`), every other API route is some handler
`otherH` (generated routes, `/files`, ...). -/
def apiRoutes (createH restoreH otherH : Handler) : Handler :=
  fun req e =>
    match req.path with
    | "backup" :: rest => backupServer createH restoreH { req with path := rest } e
    | _ => otherH req e

/-- The root router of `server.go:setupAPI`: everything under `/api`
runs behind the middleware chain `authenticate` then
`authorizeBlockedUser` (the `middlewares` slice passed to
`api.NewServer`). -/
def setupAPI (createH restoreH otherH : Handler) : Handler :=
  fun req e =>
    match req.path with
    | "api" :: rest =>
      authenticate (authorizeBlockedUser (apiRoutes createH restoreH otherH))
        { req with path := rest } e
    | _ => (e, ⟨404, []⟩)

/-- A well-formed object store: bucket names are distinct, and the keys
within each bucket are distinct. -/
def WFStorage (e : Env) : Prop :=
  (e.buckets.map Prod.fst).Nodup ∧
  ∀ bo ∈ e.buckets, (bo.2.map Prod.fst).Nodup

instance (e : Env) : Decidable (WFStorage e) := by
  unfold WFStorage; infer_instance

/-- A multipart upload carrying the archive file in form field
`backup` (§6, and `assertRestore` in the test file). -/
def mkUpload (b : ByteSeq) : Upload := [("backup", b)]

/-- The collection names for which a structure entry appears in an
archive, in archive order. -/
def structureColls (ar : Archive) : List String :=
  ar.filterMap fun en =>
    match en.1 with
    | .structureFile c _ => some c
    | _ => none

/-- The four entry path shapes of the spec's archive layout (§6). -/
def FourShapes (p : String) : Prop :=
  p = "arango/ENCRYPTION" ∨
  (∃ c s, p = "arango/" ++ c ++ "_" ++ s ++ ".structure.json") ∨
  (∃ c s, p = "arango/" ++ c ++ "_" ++ s ++ ".data.json.gz") ∨
  (∃ b k, p = "minio/" ++ b ++ "/" ++ k)

/-- Replace the content of every encryption marker entry of an archive,
leaving every other entry alone. -/
def setMarker (ar : Archive) (m : ByteSeq) : Archive :=
  ar.map fun en => if en.1 = EntryName.encryption then (EntryName.encryption, m) else en

/-- A small populated environment mirroring the test scenario: one
`tickets` document and the object `test.txt` in bucket
`catalyst-8125`. -/
def envT : Env :=
  ⟨[("tickets", [[104, 105]])],
   [("catalyst-8125", [("test.txt", [116, 101, 115, 116])])]⟩

theorem lookupA_setA_self {α : Type} (l : List (String × α)) (k : String) (v : α) :
    lookupA (setA l k v) k = some v := by
  induction l with
  | nil => simp [setA, lookupA]
  | cons hd tl ih =>
    by_cases h : hd.1 = k
    · simp [setA, h, lookupA]
    · simp [setA, h, lookupA, ih]

theorem lookupA_setA_ne {α : Type} (l : List (String × α)) {k' k : String} (v : α)
    (h : k' ≠ k) : lookupA (setA l k' v) k = lookupA l k := by
  induction l with
  | nil => simp [setA, lookupA, h]
  | cons hd tl ih =>
    by_cases h1 : hd.1 = k'
    · simp [setA, h1, lookupA, h]
    · simp only [setA, h1, if_false, lookupA]
      by_cases h2 : hd.1 = k
      · simp [h2]
      · simp [h2, ih]

theorem lookupA_append_some {α : Type} {l1 : List (String × α)} (l2 : List (String × α))
    {k : String} {v : α} (h : lookupA l1 k = some v) :
    lookupA (l1 ++ l2) k = some v := by
  induction l1 with
  | nil => simp [lookupA] at h
  | cons hd tl ih =>
    by_cases h1 : hd.1 = k
    · simp [lookupA, h1] at h ⊢; exact h
    · simp [lookupA, h1] at h ⊢; exact ih h

theorem lookupA_append_none {α : Type} {l1 : List (String × α)} (l2 : List (String × α))
    {k : String} (h : lookupA l1 k = none) :
    lookupA (l1 ++ l2) k = lookupA l2 k := by
  induction l1 with
  | nil => simp
  | cons hd tl ih =>
    by_cases h1 : hd.1 = k
    · simp [lookupA, h1] at h
    · simp [lookupA, h1] at h ⊢; exact ih h

theorem lookupA_mem {α : Type} {l : List (String × α)} {k : String} {v : α}
    (h : lookupA l k = some v) : (k, v) ∈ l := by
  induction l with
  | nil => simp [lookupA] at h
  | cons hd tl ih =>
    by_cases h1 : hd.1 = k
    · simp [lookupA, h1] at h
      exact List.mem_cons.mpr (Or.inl (by rw [← h1, ← h]))
    · simp [lookupA, h1] at h
      exact List.mem_cons_of_mem _ (ih h)

theorem decodeDocs_encodeDocs (ds : List Doc) :
    decodeDocs (encodeDocs ds) = some ds := by
  induction ds with
  | nil => simp [encodeDocs, decodeDocs]
  | cons d tl ih =>
    have hlen : d.length ≤ (d ++ encodeDocs tl).length := by
      simp
    simp only [encodeDocs, decodeDocs, hlen, if_true, List.drop_left, List.take_left, ih]

theorem decStr_encStr (s : String) (r : List Nat) :
    decStr (encStr s ++ r) = some (s, r) := by
  have hlen : (s.data.map Char.toNat).length = s.length := by
    rw [List.length_map]; rfl
  have hc : s.length ≤ (s.data.map Char.toNat ++ r).length := by
    simp [hlen]
  simp only [encStr, List.cons_append, decStr, hc, if_true,
    List.take_left' hlen, List.drop_left' hlen, List.map_map]
  have : s.data.map (Char.ofNat ∘ Char.toNat) = s.data := by
    simp [Function.comp_def]
  rw [this]

theorem decBytes_spec (v : ByteSeq) (r : List Nat) :
    decBytes (v.length :: (v ++ r)) = some (v, r) := by
  have hc : v.length ≤ (v ++ r).length := by simp
  simp [decBytes, hc, List.take_left, List.drop_left]

theorem decName_encName (n : EntryName) (r : List Nat) :
    decName (encName n ++ r) = some (n, r) := by
  cases n with
  | encryption => simp [encName, decName]
  | dumpMeta => simp [encName, decName]
  | structureFile c s =>
    simp [encName, decName, List.append_assoc, decStr_encStr]
  | dataFile c s =>
    simp [encName, decName, List.append_assoc, decStr_encStr]
  | object b k =>
    simp [encName, decName, List.append_assoc, decStr_encStr]

theorem decEntry_encEntry (en : EntryName × ByteSeq) (r : List Nat) :
    decEntry (encEntry en ++ r) = some (en, r) := by
  simp [encEntry, decEntry, List.append_assoc, List.cons_append,
    decName_encName, decBytes_spec]

theorem decEntries_flatMap (ar : Archive) (r : List Nat) :
    decEntries ar.length (ar.flatMap encEntry ++ r) = some (ar, r) := by
  induction ar generalizing r with
  | nil => simp [decEntries]
  | cons en tl ih =>
    simp [decEntries, List.append_assoc, decEntry_encEntry, ih]

theorem openArchive_serializeArchive (ar : Archive) :
    openArchive (serializeArchive ar) = some ar := by
  have h := decEntries_flatMap ar []
  rw [List.append_nil] at h
  simp [serializeArchive, openArchive, h]

theorem findStructure_append (a b : Archive) (c : String) :
    findStructure (a ++ b) c = findStructure a c ++ findStructure b c :=
  List.filterMap_append a b _

theorem findData_append (a b : Archive) (c : String) :
    findData (a ++ b) c = findData a c ++ findData b c :=
  List.filterMap_append a b _

theorem findStructure_objectEntries (e : Env) (c : String) :
    findStructure (objectEntries e) c = [] := by
  unfold findStructure objectEntries
  rw [List.filterMap_eq_nil_iff]
  intro en hen
  rw [List.mem_flatMap] at hen
  obtain ⟨bo, _, hen⟩ := hen
  rw [List.mem_map] at hen
  obtain ⟨kv, _, rfl⟩ := hen
  rfl

theorem findData_objectEntries (e : Env) (c : String) :
    findData (objectEntries e) c = [] := by
  unfold findData objectEntries
  rw [List.filterMap_eq_nil_iff]
  intro en hen
  rw [List.mem_flatMap] at hen
  obtain ⟨bo, _, hen⟩ := hen
  rw [List.mem_map] at hen
  obtain ⟨kv, _, rfl⟩ := hen
  rfl

theorem findStructure_pairList {L : List String} (sfx : String) (e : Env)
    {c : String} (hnd : L.Nodup) (hc : c ∈ L) :
    findStructure
      (L.flatMap fun c' =>
        [(EntryName.structureFile c' sfx, structureBytes c'),
         (EntryName.dataFile c' sfx, encodeDocs (dbGet e c'))]) c
      = [(sfx, structureBytes c)] := by
  induction L with
  | nil => simp at hc
  | cons c0 tl ih =>
    rw [List.nodup_cons] at hnd
    rw [List.flatMap_cons, findStructure_append]
    by_cases h0 : c0 = c
    · subst h0
      have htl : findStructure
          (tl.flatMap fun c' =>
            [(EntryName.structureFile c' sfx, structureBytes c'),
             (EntryName.dataFile c' sfx, encodeDocs (dbGet e c'))]) c0 = [] := by
        unfold findStructure
        rw [List.filterMap_eq_nil_iff]
        intro en hen
        rw [List.mem_flatMap] at hen
        obtain ⟨c', hc', hen⟩ := hen
        have hne : c' ≠ c0 := fun h => hnd.1 (h ▸ hc')
        rw [List.mem_cons, List.mem_singleton] at hen
        rcases hen with h | h
        · subst h; simp [hne]
        · subst h; rfl
      rw [htl]
      simp [findStructure]
    · have hc' : c ∈ tl := by
        rcases List.mem_cons.mp hc with h | h
        · exact absurd h.symm h0
        · exact h
      rw [ih hnd.2 hc']
      simp [findStructure, h0]

theorem findData_pairList {L : List String} (sfx : String) (e : Env)
    {c : String} (hnd : L.Nodup) (hc : c ∈ L) :
    findData
      (L.flatMap fun c' =>
        [(EntryName.structureFile c' sfx, structureBytes c'),
         (EntryName.dataFile c' sfx, encodeDocs (dbGet e c'))]) c
      = [(sfx, encodeDocs (dbGet e c))] := by
  induction L with
  | nil => simp at hc
  | cons c0 tl ih =>
    rw [List.nodup_cons] at hnd
    rw [List.flatMap_cons, findData_append]
    by_cases h0 : c0 = c
    · subst h0
      have htl : findData
          (tl.flatMap fun c' =>
            [(EntryName.structureFile c' sfx, structureBytes c'),
             (EntryName.dataFile c' sfx, encodeDocs (dbGet e c'))]) c0 = [] := by
        unfold findData
        rw [List.filterMap_eq_nil_iff]
        intro en hen
        rw [List.mem_flatMap] at hen
        obtain ⟨c', hc', hen⟩ := hen
        have hne : c' ≠ c0 := fun h => hnd.1 (h ▸ hc')
        rw [List.mem_cons, List.mem_singleton] at hen
        rcases hen with h | h
        · subst h; rfl
        · subst h; simp [hne]
      rw [htl]
      simp [findData]
    · have hc' : c ∈ tl := by
        rcases List.mem_cons.mp hc with h | h
        · exact absurd h.symm h0
        · exact h
      rw [ih hnd.2 hc']
      simp [findData, h0]

theorem knownCollections_nodup : knownCollections.Nodup := by decide

theorem findStructure_backup (sfx : String) (e : Env) {c : String}
    (hc : c ∈ knownCollections) :
    findStructure (backupArchive sfx e) c = [(sfx, structureBytes c)] := by
  unfold backupArchive collectionEntries
  rw [findStructure_append, findStructure_append, findStructure_append,
    findStructure_pairList sfx e knownCollections_nodup hc,
    findStructure_objectEntries]
  simp [findStructure]

theorem findData_backup (sfx : String) (e : Env) {c : String}
    (hc : c ∈ knownCollections) :
    findData (backupArchive sfx e) c = [(sfx, encodeDocs (dbGet e c))] := by
  unfold backupArchive collectionEntries
  rw [findData_append, findData_append, findData_append,
    findData_pairList sfx e knownCollections_nodup hc,
    findData_objectEntries]
  simp [findData]

theorem restoreCollection_backup (sfx : String) (e : Env) {c : String}
    (hc : c ∈ knownCollections) :
    restoreCollection (backupArchive sfx e) c = .ok (dbGet e c) := by
  rw [restoreCollection, findStructure_backup sfx e hc, findData_backup sfx e hc]
  simp [lookupA, decodeDocs_encodeDocs]

theorem restoreCollections_buckets (cs : List String) (ar : Archive) (e : Env) :
    (restoreCollections cs ar e).1.buckets = e.buckets := by
  induction cs generalizing e with
  | nil => rfl
  | cons c tl ih =>
    rw [restoreCollections]
    cases restoreCollection ar c with
    | error err => rfl
    | ok ds => exact ih _

theorem restoreCollections_ok (cs : List String) (ar : Archive) (e : Env)
    (docsOf : String → List Doc)
    (h : ∀ c ∈ cs, restoreCollection ar c = .ok (docsOf c))
    (hnd : cs.Nodup) :
    (restoreCollections cs ar e).2 = none ∧
    (∀ c ∈ cs, lookupA (restoreCollections cs ar e).1.db c = some (docsOf c)) ∧
    (∀ c, c ∉ cs → lookupA (restoreCollections cs ar e).1.db c = lookupA e.db c) := by
  induction cs generalizing e with
  | nil => exact ⟨rfl, by simp, fun c _ => rfl⟩
  | cons c0 tl ih =>
    rw [List.nodup_cons] at hnd
    have h0 := h c0 (List.mem_cons_self c0 tl)
    rw [restoreCollections, h0]
    have htl : ∀ c ∈ tl, restoreCollection ar c = .ok (docsOf c) :=
      fun c hc => h c (List.mem_cons_of_mem c0 hc)
    set e' : Env := { e with db := setA e.db c0 (docsOf c0) } with he'
    obtain ⟨ih1, ih2, ih3⟩ := ih e' htl hnd.2
    refine ⟨ih1, ?_, ?_⟩
    · intro c hc
      rcases List.mem_cons.mp hc with rfl | hc
      · rw [ih3 c hnd.1, he']
        exact lookupA_setA_self e.db c (docsOf c)
      · exact ih2 c hc
    · intro c hc
      rw [List.mem_cons] at hc
      push_neg at hc
      rw [ih3 c hc.2, he']
      exact lookupA_setA_ne e.db (docsOf c0) (Ne.symm hc.1)

theorem getObj_ensureBucket (st : List (String × List (String × ByteSeq)))
    (b b' k' : String) :
    getObj (ensureBucket st b) b' k' = getObj st b' k' := by
  unfold ensureBucket
  cases hb : lookupA st b with
  | some objs => rfl
  | none =>
    unfold getObj
    cases hb' : lookupA st b' with
    | some objs => rw [lookupA_append_some _ hb']
    | none =>
      rw [lookupA_append_none _ hb']
      by_cases h : b = b'
      · subst h; simp [lookupA]
      · simp [lookupA, h]

theorem lookupA_ensureBucket_isSome (st : List (String × List (String × ByteSeq)))
    (b : String) : (lookupA (ensureBucket st b) b).isSome := by
  unfold ensureBucket
  cases hb : lookupA st b with
  | some objs => simp [hb]
  | none => rw [lookupA_append_none _ hb]; simp [lookupA]

theorem lookupA_putObject (st : List (String × List (String × ByteSeq)))
    (b k : String) (v : ByteSeq) :
    lookupA (putObject st b k v) b
      = (lookupA st b).map fun objs => setA objs k v := by
  induction st with
  | nil => rfl
  | cons bo tl ih =>
    obtain ⟨b0, objs0⟩ := bo
    by_cases h : b0 = b
    · simp [putObject, lookupA, h]
    · simp [putObject, lookupA, h, ih]

theorem lookupA_putObject_ne (st : List (String × List (String × ByteSeq)))
    {b b' : String} (k : String) (v : ByteSeq) (h : b' ≠ b) :
    lookupA (putObject st b k v) b' = lookupA st b' := by
  induction st with
  | nil => rfl
  | cons bo tl ih =>
    obtain ⟨b0, objs0⟩ := bo
    by_cases h1 : b0 = b
    · subst h1
      simp only [putObject, if_pos rfl, lookupA]
      rw [if_neg (fun hh => h (Eq.symm hh)), if_neg (fun hh => h (Eq.symm hh)), ih]
    · simp only [putObject, if_neg h1, lookupA]
      by_cases h2 : b0 = b'
      · simp [h2]
      · simp [h2, ih]

theorem getObj_put_get (st : List (String × List (String × ByteSeq)))
    (b k : String) (v : ByteSeq) (h : (lookupA st b).isSome) :
    getObj (putObject st b k v) b k = some v := by
  obtain ⟨objs, hobjs⟩ := Option.isSome_iff_exists.mp h
  unfold getObj
  rw [lookupA_putObject, hobjs]
  simp [lookupA_setA_self]

theorem getObj_put_ne (st : List (String × List (String × ByteSeq)))
    {b k b' k' : String} (v : ByteSeq) (h : b' ≠ b ∨ k' ≠ k) :
    getObj (putObject st b k v) b' k' = getObj st b' k' := by
  by_cases hb : b' = b
  · subst hb
    have hk : k' ≠ k := h.resolve_left (fun hh => hh rfl)
    unfold getObj
    rw [lookupA_putObject]
    cases lookupA st b' with
    | none => rfl
    | some objs => simp [lookupA_setA_ne objs v (Ne.symm hk)]
  · unfold getObj
    rw [lookupA_putObject_ne st k v hb]

theorem replayObjects_cons (en : EntryName × ByteSeq) (l : Archive)
    (st : List (String × List (String × ByteSeq))) :
    replayObjects (en :: l) st
      = replayObjects l
          (match en.1 with
           | .object b k => putObject (ensureBucket st b) b k en.2
           | _ => st) := rfl

theorem replayObjects_append (l1 l2 : Archive)
    (st : List (String × List (String × ByteSeq))) :
    replayObjects (l1 ++ l2) st = replayObjects l2 (replayObjects l1 st) :=
  List.foldl_append _ _ l1 l2

theorem getObj_replayObjects_notmem (l : Archive)
    (st : List (String × List (String × ByteSeq))) (b k : String)
    (h : ∀ en ∈ l, en.1 ≠ EntryName.object b k) :
    getObj (replayObjects l st) b k = getObj st b k := by
  induction l generalizing st with
  | nil => rfl
  | cons en tl ih =>
    rw [replayObjects_cons]
    rw [ih _ fun en' hen' => h en' (List.mem_cons_of_mem en hen')]
    have hne := h en (List.mem_cons_self en tl)
    cases hn : en.1 with
    | object b0 k0 =>
      have : b0 ≠ b ∨ k0 ≠ k := by
        by_contra hc
        push_neg at hc
        exact hne (by rw [hn, hc.1, hc.2])
      rw [getObj_put_ne _ en.2 (this.imp Ne.symm Ne.symm), getObj_ensureBucket]
    | encryption => rfl
    | dumpMeta => rfl
    | structureFile c s => rfl
    | dataFile c s => rfl

theorem replayObjects_nonobject (l : Archive)
    (st : List (String × List (String × ByteSeq)))
    (h : ∀ en ∈ l, ∀ b k, en.1 ≠ EntryName.object b k) :
    replayObjects l st = st := by
  induction l generalizing st with
  | nil => rfl
  | cons en tl ih =>
    rw [replayObjects_cons]
    have hne := h en (List.mem_cons_self en tl)
    have htl : ∀ en' ∈ tl, ∀ b k, en'.1 ≠ EntryName.object b k :=
      fun en' hen' => h en' (List.mem_cons_of_mem en hen')
    cases hn : en.1 with
    | object b0 k0 => exact absurd rfl (hn ▸ hne b0 k0)
    | encryption => exact ih _ htl
    | dumpMeta => exact ih _ htl
    | structureFile c s => exact ih _ htl
    | dataFile c s => exact ih _ htl

theorem getObj_replayObjects_bucket (objs : List (String × ByteSeq))
    (st : List (String × List (String × ByteSeq))) (b k : String) (v : ByteSeq)
    (hnd : (objs.map Prod.fst).Nodup) (hk : lookupA objs k = some v) :
    getObj (replayObjects (objs.map fun kv => (EntryName.object b kv.1, kv.2)) st)
      b k = some v := by
  induction objs generalizing st with
  | nil => simp [lookupA] at hk
  | cons kv tl ih =>
    obtain ⟨k0, v0⟩ := kv
    rw [List.map_cons, List.nodup_cons] at hnd
    rw [List.map_cons, replayObjects_cons]
    by_cases h : k0 = k
    · subst h
      have hv : v0 = v := by simpa [lookupA] using hk
      subst hv
      rw [getObj_replayObjects_notmem]
      · exact getObj_put_get _ _ _ _ (lookupA_ensureBucket_isSome st b)
      · intro en hen
        rw [List.mem_map] at hen
        obtain ⟨kv', hkv', rfl⟩ := hen
        simp only [ne_eq, EntryName.object.injEq, not_and]
        intro _ hkk
        have hmem : kv'.1 ∈ tl.map Prod.fst := List.mem_map_of_mem Prod.fst hkv'
        rw [hkk] at hmem
        exact hnd.1 hmem
    · have hk' : lookupA tl k = some v := by simpa [lookupA, h] using hk
      exact ih _ hnd.2 hk'

theorem getObj_replayObjects_flat (bs : List (String × List (String × ByteSeq)))
    (st : List (String × List (String × ByteSeq))) (b k : String) (v : ByteSeq)
    (hnd : (bs.map Prod.fst).Nodup)
    (hko : ∀ bo ∈ bs, (bo.2.map Prod.fst).Nodup)
    (hget : getObj bs b k = some v) :
    getObj
      (replayObjects
        (bs.flatMap fun bo => bo.2.map fun kv => (EntryName.object bo.1 kv.1, kv.2))
        st) b k = some v := by
  induction bs generalizing st with
  | nil => simp [getObj, lookupA] at hget
  | cons bo tl ih =>
    obtain ⟨b0, objs0⟩ := bo
    rw [List.map_cons, List.nodup_cons] at hnd
    rw [List.flatMap_cons, replayObjects_append]
    by_cases h : b0 = b
    · subst h
      have hk : lookupA objs0 k = some v := by
        simpa [getObj, lookupA] using hget
      rw [getObj_replayObjects_notmem]
      · exact getObj_replayObjects_bucket objs0 st b0 k v
          (hko (b0, objs0) (List.mem_cons_self _ _)) hk
      · intro en hen
        rw [List.mem_flatMap] at hen
        obtain ⟨bo', hbo', hen⟩ := hen
        rw [List.mem_map] at hen
        obtain ⟨kv', _, rfl⟩ := hen
        simp only [ne_eq, EntryName.object.injEq, not_and]
        intro hbb _
        have hmem : bo'.1 ∈ tl.map Prod.fst := List.mem_map_of_mem Prod.fst hbo'
        rw [hbb] at hmem
        exact hnd.1 hmem
    · have hget' : getObj tl b k = some v := by
        simpa [getObj, lookupA, h] using hget
      exact ih _ hnd.2 (fun bo' hbo' => hko bo' (List.mem_cons_of_mem _ hbo')) hget'

theorem collectionEntries_nonobject (sfx : String) (e : Env) :
    ∀ en ∈ collectionEntries sfx e, ∀ b k, en.1 ≠ EntryName.object b k := by
  intro en hen b k
  rw [collectionEntries, List.mem_flatMap] at hen
  obtain ⟨c, _, hen⟩ := hen
  rw [List.mem_cons, List.mem_singleton] at hen
  rcases hen with rfl | rfl <;> simp

theorem replayObjects_backupArchive (sfx : String) (e : Env)
    (st : List (String × List (String × ByteSeq))) :
    replayObjects (backupArchive sfx e) st = replayObjects (objectEntries e) st := by
  rw [backupArchive, replayObjects_append, replayObjects_append,
    replayObjects_append]
  rw [replayObjects_nonobject _ _ (collectionEntries_nonobject sfx e)]
  rw [replayObjects_nonobject ([(EntryName.dumpMeta, dumpMetaBytes)]) st
    (by intro en hen b k; rw [List.mem_singleton] at hen; subst hen; simp)]
  rw [replayObjects_nonobject ([(EntryName.encryption, markerBytes)]) _
    (by intro en hen b k; rw [List.mem_singleton] at hen; subst hen; simp)]

theorem backupPart_mkUpload (b : ByteSeq) : backupPart (mkUpload b) = some b := by
  simp [backupPart, mkUpload, lookupA]

theorem restoreUpload_backup (sfx : String) (env envCur : Env) :
    restoreUpload (mkUpload (serializeArchive (backupArchive sfx env))) envCur
      = restoreFromArchive (backupArchive sfx env) envCur := by
  simp only [restoreUpload, backupPart_mkUpload, openArchive_serializeArchive]

theorem truncateAll_buckets (e : Env) : (truncateAll e).buckets = e.buckets := rfl

theorem restored_getObject (sfx : String) (env envCur : Env) (b k : String)
    (v : ByteSeq) (hwf : WFStorage env) (hget : getObject env b k = some v) :
    getObject
      (restoreUpload (mkUpload (serializeArchive (backupArchive sfx env))) envCur).1
      b k = some v := by
  rw [restoreUpload_backup, restoreFromArchive, getObject,
    restoreCollections_buckets, truncateAll_buckets,
    replayObjects_backupArchive]
  exact getObj_replayObjects_flat env.buckets envCur.buckets b k v hwf.1 hwf.2 hget

theorem restored_db (sfx : String) (env envCur : Env) :
    (restoreUpload (mkUpload (serializeArchive (backupArchive sfx env))) envCur).2
        = none ∧
    ∀ c ∈ knownCollections,
      dbGet
        (restoreUpload (mkUpload (serializeArchive (backupArchive sfx env))) envCur).1
        c = dbGet env c := by
  rw [restoreUpload_backup, restoreFromArchive]
  obtain ⟨h1, h2, _⟩ := restoreCollections_ok knownCollections
    (backupArchive sfx env) _ (dbGet env)
    (fun c hc => restoreCollection_backup sfx env hc) knownCollections_nodup
  exact ⟨h1, fun c hc => by rw [dbGet, h2 c hc]; rfl⟩

theorem setMarker_cons (en : EntryName × ByteSeq) (ar : Archive) (m : ByteSeq) :
    setMarker (en :: ar) m
      = (if en.1 = EntryName.encryption then (EntryName.encryption, m) else en)
          :: setMarker ar m := rfl

theorem findStructure_setMarker (ar : Archive) (m : ByteSeq) (c : String) :
    findStructure (setMarker ar m) c = findStructure ar c := by
  induction ar with
  | nil => rfl
  | cons en tl ih =>
    obtain ⟨n, content⟩ := en
    rw [setMarker_cons]
    by_cases h : (n, content).1 = EntryName.encryption
    · simp only [h, if_true]
      simp only at h
      subst h
      simp only [findStructure, List.filterMap_cons]
      exact ih
    · simp only [h, if_false]
      simp only at h
      unfold findStructure
      rw [List.filterMap_cons, List.filterMap_cons]
      cases n <;> simp_all [findStructure]

theorem findData_setMarker (ar : Archive) (m : ByteSeq) (c : String) :
    findData (setMarker ar m) c = findData ar c := by
  induction ar with
  | nil => rfl
  | cons en tl ih =>
    obtain ⟨n, content⟩ := en
    rw [setMarker_cons]
    by_cases h : (n, content).1 = EntryName.encryption
    · simp only [h, if_true]
      simp only at h
      subst h
      simp only [findData, List.filterMap_cons]
      exact ih
    · simp only [h, if_false]
      simp only at h
      unfold findData
      rw [List.filterMap_cons, List.filterMap_cons]
      cases n <;> simp_all [findData]

theorem replayObjects_setMarker (ar : Archive) (m : ByteSeq)
    (st : List (String × List (String × ByteSeq))) :
    replayObjects (setMarker ar m) st = replayObjects ar st := by
  induction ar generalizing st with
  | nil => rfl
  | cons en tl ih =>
    obtain ⟨n, content⟩ := en
    rw [setMarker_cons, replayObjects_cons, replayObjects_cons]
    by_cases h : (n, content).1 = EntryName.encryption
    · simp only [h, if_true]
      simp only at h
      subst h
      exact ih st
    · simp only [h, if_false]
      exact ih _

theorem restoreCollection_setMarker (ar : Archive) (m : ByteSeq) (c : String) :
    restoreCollection (setMarker ar m) c = restoreCollection ar c := by
  rw [restoreCollection, restoreCollection, findStructure_setMarker,
    findData_setMarker]

theorem restoreCollections_setMarker (cs : List String) (ar : Archive)
    (m : ByteSeq) (e : Env) :
    restoreCollections cs (setMarker ar m) e = restoreCollections cs ar e := by
  induction cs generalizing e with
  | nil => rfl
  | cons c tl ih =>
    rw [restoreCollections, restoreCollections, restoreCollection_setMarker]
    cases restoreCollection ar c with
    | error err => rfl
    | ok ds => exact ih _

theorem restoreFromArchive_setMarker (ar : Archive) (m : ByteSeq) (e : Env) :
    restoreFromArchive (setMarker ar m) e = restoreFromArchive ar e := by
  rw [restoreFromArchive, restoreFromArchive, replayObjects_setMarker,
    restoreCollections_setMarker]

theorem structureColls_append (a b : Archive) :
    structureColls (a ++ b) = structureColls a ++ structureColls b :=
  List.filterMap_append a b _

theorem structureColls_pairList (L : List String) (sfx : String) (e : Env) :
    structureColls
      (L.flatMap fun c =>
        [(EntryName.structureFile c sfx, structureBytes c),
         (EntryName.dataFile c sfx, encodeDocs (dbGet e c))]) = L := by
  induction L with
  | nil => rfl
  | cons c0 tl ih =>
    rw [List.flatMap_cons, structureColls_append, ih]
    simp [structureColls]

theorem structureColls_objectEntries (e : Env) :
    structureColls (objectEntries e) = [] := by
  unfold structureColls objectEntries
  rw [List.filterMap_eq_nil_iff]
  intro en hen
  rw [List.mem_flatMap] at hen
  obtain ⟨bo, _, hen⟩ := hen
  rw [List.mem_map] at hen
  obtain ⟨kv, _, rfl⟩ := hen
  rfl

theorem dumpCollections_viewOf (sfx : String) (e : Env) (L : List String) :
    dumpCollections sfx (viewOf e) L
      = .ok (L.flatMap fun c =>
          [(EntryName.structureFile c sfx, structureBytes c),
           (EntryName.dataFile c sfx, encodeDocs (dbGet e c))]) := by
  induction L with
  | nil => rfl
  | cons c tl ih =>
    rw [dumpCollections, ih]
    rfl

theorem backupArchiveV_viewOf (sfx : String) (e : Env) :
    backupArchiveV sfx (viewOf e) = .ok (backupArchive sfx e) := by
  rw [backupArchiveV, dumpCollections_viewOf]
  rfl

theorem backupHandler_eq (sfx : String) (e : Env) :
    backupHandler sfx e = ⟨200, serializeArchive (backupArchive sfx e)⟩ := by
  rw [backupHandler, backupRequest, backupArchiveV_viewOf]

/-- C1: for every populated environment (and whatever the current state
is when the restore runs), restoring the archive produced by backup
succeeds, and leaves every known collection's documents and every
bucket/key object byte-for-byte identical to the pre-backup state. -/
theorem claim1_backup_restore_round_trip (sfx : String) (env envCur : Env)
    (hwf : WFStorage env) :
    (restoreUpload (mkUpload ((backupHandler sfx env).body)) envCur).2 = none ∧
    (∀ c ∈ knownCollections,
      dbGet (restoreUpload (mkUpload ((backupHandler sfx env).body)) envCur).1 c
        = dbGet env c) ∧
    (∀ b k v, getObject env b k = some v →
      getObject (restoreUpload (mkUpload ((backupHandler sfx env).body)) envCur).1
        b k = some v) := by
  simp only [backupHandler_eq]
  obtain ⟨h1, h2⟩ := restored_db sfx env envCur
  exact ⟨h1, h2, fun b k v hget => restored_getObject sfx env envCur b k v hwf hget⟩

/-- Witness for C1 at the test-like environment. -/
theorem claim1_backup_restore_round_trip_witness :
    WFStorage envT ∧
    ((restoreUpload (mkUpload ((backupHandler "2006-01-02" envT).body)) ⟨[], []⟩).2
        = none ∧
     (∀ c ∈ knownCollections,
       dbGet
         (restoreUpload (mkUpload ((backupHandler "2006-01-02" envT).body))
           ⟨[], []⟩).1 c = dbGet envT c) ∧
     (∀ b k v, getObject envT b k = some v →
       getObject
         (restoreUpload (mkUpload ((backupHandler "2006-01-02" envT).body))
           ⟨[], []⟩).1 b k = some v)) :=
  ⟨by decide, claim1_backup_restore_round_trip "2006-01-02" envT ⟨[], []⟩ (by decide)⟩

/-- C2: the set of collection names with a structure entry in a fresh
backup archive is exactly the fixed list of 11 known collections — none
missing and no extras. -/
theorem claim2_archive_completeness (sfx : String) (e : Env) :
    structureColls (backupArchive sfx e) = knownCollections := by
  rw [backupArchive, structureColls_append, structureColls_append,
    structureColls_append, structureColls_objectEntries]
  rw [collectionEntries, structureColls_pairList]
  simp [structureColls]

/-- Witness for C2 at the test-like environment. -/
theorem claim2_archive_completeness_witness :
    structureColls (backupArchive "2006-01-02" envT) = knownCollections :=
  claim2_archive_completeness "2006-01-02" envT

theorem not_fourShapes_dump : ¬ FourShapes "arango/dump.json" := by
  have e0 : ("arango/dump.json" : String).length = 16 := by decide
  have e1 : ("arango/" : String).length = 7 := by decide
  have e2 : ("_" : String).length = 1 := by decide
  have e3 : (".structure.json" : String).length = 15 := by decide
  have e4 : (".data.json.gz" : String).length = 13 := by decide
  intro h
  rcases h with h | ⟨c, s, h⟩ | ⟨c, s, h⟩ | ⟨b, k, h⟩
  · exact absurd h (by decide)
  · have hl := congrArg String.length h
    simp only [String.length_append, e0, e1, e2, e3] at hl
    omega
  · have hl := congrArg String.length h
    simp only [String.length_append, e0, e1, e2, e4] at hl
    omega
  · have hd := congrArg String.data h
    simp only [String.data_append] at hd
    simp only [List.cons_append, List.nil_append] at hd
    injection hd with h1 _
    exact absurd h1 (by decide)

/-- C3 (counterexample): the backup archive of the test-like environment
contains the entry `arango/dump.json`, which matches none of the four
path shapes of the spec's archive layout. -/
theorem claim3_counterexample :
    ¬ (∀ en ∈ backupArchive "2006-01-02" envT, FourShapes en.1.path) := by
  intro h
  have hmem : (EntryName.dumpMeta, dumpMetaBytes)
      ∈ backupArchive "2006-01-02" envT := by decide
  exact not_fourShapes_dump (h _ hmem)

/-- C3 (amended): every entry of a backup archive has one of five path
shapes — the four of the spec's layout, or the `arango/dump.json`
metadata entry. -/
theorem claim3_amended_five_shapes (sfx : String) (e : Env) :
    ∀ en ∈ backupArchive sfx e,
      FourShapes en.1.path ∨ en.1.path = "arango/dump.json" := by
  intro en hen
  rw [backupArchive] at hen
  rcases List.mem_append.mp hen with hen | hen
  · rcases List.mem_append.mp hen with hen | hen
    · rcases List.mem_append.mp hen with hen | hen
      · rw [collectionEntries, List.mem_flatMap] at hen
        obtain ⟨c, _, hen⟩ := hen
        rw [List.mem_cons, List.mem_singleton] at hen
        rcases hen with rfl | rfl
        · exact Or.inl (Or.inr (Or.inl ⟨c, sfx, rfl⟩))
        · exact Or.inl (Or.inr (Or.inr (Or.inl ⟨c, sfx, rfl⟩)))
      · rw [List.mem_singleton] at hen
        subst hen
        exact Or.inr rfl
    · rw [objectEntries, List.mem_flatMap] at hen
      obtain ⟨bo, _, hen⟩ := hen
      rw [List.mem_map] at hen
      obtain ⟨kv, _, rfl⟩ := hen
      exact Or.inl (Or.inr (Or.inr (Or.inr ⟨bo.1, kv.1, rfl⟩)))
  · rw [List.mem_singleton] at hen
    subst hen
    exact Or.inl (Or.inl rfl)

/-- Witness for the amended C3 at a concrete entry of the test-like
environment's backup archive. -/
theorem claim3_amended_five_shapes_witness :
    (EntryName.encryption, markerBytes) ∈ backupArchive "2006-01-02" envT ∧
    (FourShapes (EntryName.path EntryName.encryption) ∨
      EntryName.path EntryName.encryption = "arango/dump.json") :=
  ⟨by decide,
   claim3_amended_five_shapes "2006-01-02" envT (EntryName.encryption, markerBytes)
     (by decide)⟩

/-- C4: a backup archive carries both the structure and the data entry
of every known collection under one shared suffix; during restore an
archive with a structure entry but no data entry (or data but no
structure) for a collection is rejected with `MissingCollectionDump`,
while a collection entirely absent from the archive is left empty
without error. -/
theorem claim4_pairing_invariant (sfx : String) (e : Env) (c : String)
    (hc : c ∈ knownCollections) :
    ((EntryName.structureFile c sfx, structureBytes c) ∈ backupArchive sfx e ∧
     (EntryName.dataFile c sfx, encodeDocs (dbGet e c)) ∈ backupArchive sfx e) ∧
    (∀ ar : Archive, findStructure ar c ≠ [] → findData ar c = [] →
      restoreCollection ar c = .error (.missingCollectionDump c)) ∧
    (∀ ar : Archive, findStructure ar c = [] → findData ar c ≠ [] →
      restoreCollection ar c = .error (.missingCollectionDump c)) ∧
    (∀ ar : Archive, findStructure ar c = [] → findData ar c = [] →
      restoreCollection ar c = .ok []) := by
  refine ⟨⟨?_, ?_⟩, ?_, ?_, ?_⟩
  · rw [backupArchive]
    refine List.mem_append.mpr (Or.inl (List.mem_append.mpr (Or.inl
      (List.mem_append.mpr (Or.inl ?_)))))
    rw [collectionEntries, List.mem_flatMap]
    exact ⟨c, hc, by simp⟩
  · rw [backupArchive]
    refine List.mem_append.mpr (Or.inl (List.mem_append.mpr (Or.inl
      (List.mem_append.mpr (Or.inl ?_)))))
    rw [collectionEntries, List.mem_flatMap]
    exact ⟨c, hc, by simp⟩
  · intro ar hs hd
    cases hs' : findStructure ar c with
    | nil => exact absurd hs' hs
    | cons p tl =>
      obtain ⟨s, sb⟩ := p
      rw [restoreCollection, hs', hd]
      rfl
  · intro ar hs hd
    cases hd' : findData ar c with
    | nil => exact absurd hd' hd
    | cons p tl =>
      rw [restoreCollection, hs, hd']
  · intro ar hs hd
    rw [restoreCollection, hs, hd]

/-- Witness for C4 at the collection `tickets`. -/
theorem claim4_pairing_invariant_witness :
    ((EntryName.structureFile "tickets" "2006-01-02", structureBytes "tickets")
        ∈ backupArchive "2006-01-02" envT ∧
     (EntryName.dataFile "tickets" "2006-01-02", encodeDocs (dbGet envT "tickets"))
        ∈ backupArchive "2006-01-02" envT) ∧
    (∀ ar : Archive, findStructure ar "tickets" ≠ [] → findData ar "tickets" = [] →
      restoreCollection ar "tickets" = .error (.missingCollectionDump "tickets")) ∧
    (∀ ar : Archive, findStructure ar "tickets" = [] → findData ar "tickets" ≠ [] →
      restoreCollection ar "tickets" = .error (.missingCollectionDump "tickets")) ∧
    (∀ ar : Archive, findStructure ar "tickets" = [] → findData ar "tickets" = [] →
      restoreCollection ar "tickets" = .ok []) :=
  claim4_pairing_invariant "2006-01-02" envT "tickets" (by decide)

/-- C5: an object stored at bucket `b`, key `k` appears in the backup
archive under exactly the path `minio/<b>/<k>` with its raw bytes, and
after a restore of that archive it is retrievable at `b`, `k` with
identical content. -/
theorem claim5_object_path_fidelity (sfx b k : String) (v : ByteSeq)
    (env envCur : Env) (hwf : WFStorage env)
    (hget : getObject env b k = some v) :
    (EntryName.object b k, v) ∈ backupArchive sfx env ∧
    EntryName.path (EntryName.object b k) = "minio/" ++ b ++ "/" ++ k ∧
    getObject (restoreUpload (mkUpload ((backupHandler sfx env).body)) envCur).1
      b k = some v := by
  refine ⟨?_, rfl, ?_⟩
  swap
  · simp only [backupHandler_eq]
    exact restored_getObject sfx env envCur b k v hwf hget
  rw [getObject, getObj] at hget
  cases hb : lookupA env.buckets b with
  | none => rw [hb] at hget; simp at hget
  | some objs =>
    rw [hb] at hget
    have hmb : (b, objs) ∈ env.buckets := lookupA_mem hb
    have hmk : (k, v) ∈ objs := lookupA_mem hget
    rw [backupArchive]
    refine List.mem_append.mpr (Or.inl (List.mem_append.mpr (Or.inr ?_)))
    rw [objectEntries, List.mem_flatMap]
    exact ⟨(b, objs), hmb, List.mem_map.mpr ⟨(k, v), hmk, rfl⟩⟩

/-- Witness for C5 at the test object `catalyst-8125/test.txt`. -/
theorem claim5_object_path_fidelity_witness :
    WFStorage envT ∧
    getObject envT "catalyst-8125" "test.txt" = some [116, 101, 115, 116] ∧
    ((EntryName.object "catalyst-8125" "test.txt", [116, 101, 115, 116])
        ∈ backupArchive "2006-01-02" envT ∧
     EntryName.path (EntryName.object "catalyst-8125" "test.txt")
        = "minio/" ++ "catalyst-8125" ++ "/" ++ "test.txt" ∧
     getObject
       (restoreUpload (mkUpload ((backupHandler "2006-01-02" envT).body))
         ⟨[], []⟩).1 "catalyst-8125" "test.txt" = some [116, 101, 115, 116]) :=
  ⟨by decide, by decide,
   claim5_object_path_fidelity "2006-01-02" "catalyst-8125" "test.txt"
     [116, 101, 115, 116] envT ⟨[], []⟩ (by decide) (by decide)⟩

/-- C6: a restore request whose upload is missing the archive part, or
whose byte stream is not a parseable archive, fails with `InvalidUpload`
or `CorruptArchive` respectively, and the environment — in particular
every known collection — is returned exactly as it was: truncation only
happens after the archive opens. -/
theorem claim6_invalid_upload_no_truncation (up : Upload) (e : Env) :
    (backupPart up = none →
      restoreUpload up e = (e, some RErr.invalidUpload)) ∧
    (∀ bytes, backupPart up = some bytes → openArchive bytes = none →
      restoreUpload up e = (e, some RErr.corruptArchive)) := by
  constructor
  · intro h
    rw [restoreUpload, h]
  · intro bytes h1 h2
    simp [restoreUpload, h1, h2]

/-- Witness for C6: a missing `backup` part and a non-archive byte
stream, both leaving the test-like environment untouched. -/
theorem claim6_invalid_upload_no_truncation_witness :
    restoreUpload [("other", [1])] envT = (envT, some RErr.invalidUpload) ∧
    restoreUpload [("backup", [99])] envT = (envT, some RErr.corruptArchive) :=
  ⟨(claim6_invalid_upload_no_truncation [("other", [1])] envT).1 (by decide),
   (claim6_invalid_upload_no_truncation [("backup", [99])] envT).2 [99]
     (by decide) (by decide)⟩

/-- C7: a successful backup-create request returns 200 with the archive
bytes as body, and an internal failure during backup (a failed store
read, surfaced by the fallible collaborator view) returns a non-2xx
status with a body naming the error; a restore request returns 200
exactly when the full restore succeeds, and otherwise a non-2xx status
with a body naming the error kind. -/
theorem claim7_http_surface (sfx : String) (e : Env) (v : StoreView)
    (up : Upload) (envc : Env) :
    ((backupHandler sfx e).status = 200 ∧
     (backupHandler sfx e).body = serializeArchive (backupArchive sfx e)) ∧
    (∀ ar, backupArchiveV sfx v = .ok ar →
      backupRequest sfx v = ⟨200, serializeArchive ar⟩) ∧
    (∀ er, backupArchiveV sfx v = .error er →
      (backupRequest sfx v).status = 500 ∧
      (backupRequest sfx v).body = errBody er ∧ errBody er ≠ []) ∧
    ((restoreHandler up envc).2.status = 200 ↔ (restoreUpload up envc).2 = none) ∧
    (∀ er, (restoreUpload up envc).2 = some er →
      (restoreHandler up envc).2.status = 400 ∧
      (restoreHandler up envc).2.body = errBody er ∧ errBody er ≠ []) := by
  refine ⟨⟨by rw [backupHandler_eq], by rw [backupHandler_eq]⟩, ?_, ?_, ?_, ?_⟩
  · intro ar h
    rw [backupRequest, h]
  · intro er h
    rw [backupRequest, h]
    refine ⟨rfl, rfl, ?_⟩
    cases er <;> simp [errBody]
  · rw [restoreHandler]
    rcases h : restoreUpload up envc with ⟨e3, err⟩
    cases err with
    | none => simp
    | some er => simp
  · intro er h
    rcases hru : restoreUpload up envc with ⟨e3, err⟩
    rw [hru] at h
    have h' : err = some er := h
    subst h'
    rw [restoreHandler, hru]
    refine ⟨rfl, rfl, ?_⟩
    cases er <;> simp [errBody]

/-- Witness for C7: the healthy backup response, a backup against a
failing store, and a concrete failing restore upload. -/
theorem claim7_http_surface_witness :
    ((backupHandler "2006-01-02" envT).status = 200 ∧
     (backupHandler "2006-01-02" envT).body
        = serializeArchive (backupArchive "2006-01-02" envT)) ∧
    ((backupRequest "2006-01-02" failingView).status = 500 ∧
     (backupRequest "2006-01-02" failingView).body = errBody RErr.storeFailure ∧
     errBody RErr.storeFailure ≠ []) ∧
    ((restoreHandler [("backup", [99])] envT).2.status = 400 ∧
     (restoreHandler [("backup", [99])] envT).2.body
        = errBody RErr.corruptArchive ∧
     errBody RErr.corruptArchive ≠ []) :=
  ⟨(claim7_http_surface "2006-01-02" envT failingView [("backup", [99])] envT).1,
   (claim7_http_surface "2006-01-02" envT failingView [("backup", [99])] envT).2.2.1
     RErr.storeFailure rfl,
   (claim7_http_surface "2006-01-02" envT failingView [("backup", [99])] envT).2.2.2.2
     RErr.corruptArchive (by decide)⟩

/-- C8: the backup sub-router admits `GET /create` only with capability
`backup:create` and `POST /restore` only with `backup:restore`; without
the capability the result is the authorizer's 403 denial, for every
possible handler — the handler is never reached. -/
theorem claim8_capability_gating (cH rH : Handler) (req : Request) (e : Env) :
    (req.method = "GET" → req.path = ["create"] →
      "backup:create" ∉ req.perms →
      backupServer cH rH req e = (e, ⟨403, [9]⟩)) ∧
    (req.method = "POST" → req.path = ["restore"] →
      "backup:restore" ∉ req.perms →
      backupServer cH rH req e = (e, ⟨403, [9]⟩)) ∧
    (req.method = "GET" → req.path = ["create"] →
      "backup:create" ∈ req.perms →
      backupServer cH rH req e = cH req e) ∧
    (req.method = "POST" → req.path = ["restore"] →
      "backup:restore" ∈ req.perms →
      backupServer cH rH req e = rH req e) := by
  refine ⟨?_, ?_, ?_, ?_⟩ <;> intro hm hp hperm <;>
    simp [backupServer, hm, hp, authorizePermission, hperm]

/-- Witness for C8: a caller without `backup:create` is denied with 403
no matter which handler is mounted. -/
theorem claim8_capability_gating_witness :
    backupServer (fun _ e => (e, ⟨200, []⟩)) (fun _ e => (e, ⟨200, []⟩))
      ⟨"GET", ["create"], true, false, ["ticket:read"], []⟩ envT
      = (envT, ⟨403, [9]⟩) :=
  (claim8_capability_gating (fun _ e => (e, ⟨200, []⟩)) (fun _ e => (e, ⟨200, []⟩))
      ⟨"GET", ["create"], true, false, ["ticket:read"], []⟩ envT).1
    rfl rfl (by decide)

/-- C9: every backup archive ends with the encryption marker entry, at
exactly the path `arango/ENCRYPTION`, written after all collection dumps
and all object entries; and restore never interprets the marker's
content — replacing it changes nothing. -/
theorem claim9_encryption_marker (sfx : String) (e : Env) :
    (∃ pre, backupArchive sfx e = pre ++ [(EntryName.encryption, markerBytes)] ∧
       ∀ en ∈ pre, en.1 ≠ EntryName.encryption) ∧
    EntryName.path EntryName.encryption = "arango/ENCRYPTION" ∧
    (∀ (ar : Archive) (m : ByteSeq) (envCur : Env),
       restoreFromArchive (setMarker ar m) envCur
         = restoreFromArchive ar envCur) := by
  refine ⟨⟨collectionEntries sfx e ++ [(EntryName.dumpMeta, dumpMetaBytes)]
      ++ objectEntries e, rfl, ?_⟩, rfl,
    fun ar m envCur => restoreFromArchive_setMarker ar m envCur⟩
  intro en hen
  rcases List.mem_append.mp hen with hen | hen
  · rcases List.mem_append.mp hen with hen | hen
    · rw [collectionEntries, List.mem_flatMap] at hen
      obtain ⟨c, _, hen⟩ := hen
      rw [List.mem_cons, List.mem_singleton] at hen
      rcases hen with rfl | rfl <;> simp
    · rw [List.mem_singleton] at hen
      subst hen
      simp
  · rw [objectEntries, List.mem_flatMap] at hen
    obtain ⟨bo, _, hen⟩ := hen
    rw [List.mem_map] at hen
    obtain ⟨kv, _, rfl⟩ := hen
    simp

/-- Witness for C9 at the test-like environment. -/
theorem claim9_encryption_marker_witness :
    (∃ pre, backupArchive "2006-01-02" envT
        = pre ++ [(EntryName.encryption, markerBytes)] ∧
       ∀ en ∈ pre, en.1 ≠ EntryName.encryption) ∧
    EntryName.path EntryName.encryption = "arango/ENCRYPTION" ∧
    (∀ (ar : Archive) (m : ByteSeq) (envCur : Env),
       restoreFromArchive (setMarker ar m) envCur
         = restoreFromArchive ar envCur) :=
  claim9_encryption_marker "2006-01-02" envT

/-- C10: every request routed under `/api` — the backup and restore
endpoints included — runs the authentication middleware and then the
blocked-user middleware before any mounted handler: an unauthenticated
caller gets 401 and a blocked user 403, whatever handlers are
mounted. -/
theorem claim10_api_middleware (cH rH oH : Handler) (req : Request)
    (rest : List String) (e : Env) (hpath : req.path = "api" :: rest) :
    (req.authed = false → setupAPI cH rH oH req e = (e, ⟨401, [8]⟩)) ∧
    (req.authed = true → req.blocked = true →
      setupAPI cH rH oH req e = (e, ⟨403, [8]⟩)) := by
  constructor
  · intro ha
    simp [setupAPI, hpath, authenticate, ha]
  · intro ha hb
    simp [setupAPI, hpath, authenticate, authorizeBlockedUser, ha, hb]

/-- Witness for C10: an unauthenticated request to the backup-create
route under `/api` is denied with 401 whatever handlers are mounted. -/
theorem claim10_api_middleware_witness :
    setupAPI (fun _ e => (e, ⟨200, []⟩)) (fun _ e => (e, ⟨200, []⟩))
      (fun _ e => (e, ⟨200, []⟩))
      ⟨"GET", ["api", "backup", "create"], false, false, [], []⟩ envT
      = (envT, ⟨401, [8]⟩) :=
  (claim10_api_middleware (fun _ e => (e, ⟨200, []⟩)) (fun _ e => (e, ⟨200, []⟩))
      (fun _ e => (e, ⟨200, []⟩))
      ⟨"GET", ["api", "backup", "create"], false, false, [], []⟩
      ["backup", "create"] envT rfl).1 rfl

end Catalyst
